import Mathlib

/-!
Shallow embedding of `scripts/validate_versions.py`: a changelog
validator/parser.  The script reads a changelog document, extracts release
headings with the multiline regex
`^##\s+(\d+\.\d+\.\d+)\s+-\s+(\d{4}-\d{2}-\d{2})\s*$`, validates title,
heading presence, duplicate versions, ISO dates and strict numeric-triple
descent, and can extract the release-notes body for a given version.

The document is modelled as a `String`; the multiline anchors `^`/`$` make
the regexes line-oriented, so the embedding splits the text on newline
characters and matches each pattern against single lines with a
deterministic character-list parser (the patterns are backtracking-free on
single lines: digits, dots, dashes and whitespace classes never overlap).
-/

namespace ValidateVersions

/-- Python's `\s` character class, restricted to the ASCII whitespace
characters (space, tab, newline, carriage return, vertical tab, form feed). -/
def pyWS (c : Char) : Bool :=
  c = ' ' || c = '\t' || c = '\n' || c = '\r' || c = '\x0b' || c = '\x0c'

/-- Split a character list on the newline character, like Python's
`str.split("\n")`: `n` newlines give `n + 1` pieces, the pieces never
contain a newline. -/
def splitNl : List Char → List (List Char)
  | [] => [[]]
  | c :: rest =>
    if c = '\n' then [] :: splitNl rest
    else
      match splitNl rest with
      | [] => [[c]]
      | l :: ls => (c :: l) :: ls

/-- Split a character list on a separator character (used for `"."` in
`parse_semver` and `"-"` in the date check, mirroring Python `str.split`). -/
def splitSep (sep : Char) : List Char → List (List Char)
  | [] => [[]]
  | c :: rest =>
    if c = sep then [] :: splitSep sep rest
    else
      match splitSep sep rest with
      | [] => [[c]]
      | l :: ls => (c :: l) :: ls

/-- `int` on a string of decimal digits. -/
def digitsToNat (cs : List Char) : Nat :=
  cs.foldl (fun n c => n * 10 + (c.toNat - '0'.toNat)) 0

/-- The regex piece `\s+`: requires at least one whitespace character and
consumes the maximal whitespace run (the following tokens in the heading
patterns are never whitespace, so maximal munch agrees with the regex). -/
def dropWS1 (cs : List Char) : Option (List Char) :=
  match cs with
  | c :: rest => if pyWS c then some (rest.dropWhile pyWS) else none
  | [] => none

/-- The regex piece `\d+`: the maximal nonempty run of digits, returned
together with the rest of the line. -/
def takeDigits1 (cs : List Char) : Option (List Char × List Char) :=
  let ds := cs.takeWhile Char.isDigit
  if ds.isEmpty then none else some (ds, cs.dropWhile Char.isDigit)

/-- The regex piece `\d{n}`: exactly `n` digits (counted), returned together
with the rest of the line. -/
def takeDigitsExact : Nat → List Char → Option (List Char × List Char)
  | 0, cs => some ([], cs)
  | n + 1, c :: cs =>
    if c.isDigit then
      match takeDigitsExact n cs with
      | some (ds, rest) => some (c :: ds, rest)
      | none => none
    else none
  | _ + 1, [] => none

/-- The regex piece `\d+\.\d+\.\d+` (the version group of `HEADING_RE`):
returns the matched span and the rest of the line. -/
def matchVersionNum (cs : List Char) : Option (List Char × List Char) :=
  match takeDigits1 cs with
  | none => none
  | some (d1, r1) =>
    match r1 with
    | '.' :: r2 =>
      match takeDigits1 r2 with
      | none => none
      | some (d2, r3) =>
        match r3 with
        | '.' :: r4 =>
          match takeDigits1 r4 with
          | none => none
          | some (d3, r5) => some (d1 ++ '.' :: (d2 ++ '.' :: d3), r5)
        | _ => none
    | _ => none

/-- The regex piece `\d{4}-\d{2}-\d{2}` (the date group of `HEADING_RE`):
returns the matched span and the rest of the line. -/
def matchDate (cs : List Char) : Option (List Char × List Char) :=
  match takeDigitsExact 4 cs with
  | none => none
  | some (y, r1) =>
    match r1 with
    | '-' :: r2 =>
      match takeDigitsExact 2 r2 with
      | none => none
      | some (mo, r3) =>
        match r3 with
        | '-' :: r4 =>
          match takeDigitsExact 2 r4 with
          | none => none
          | some (d, r5) => some (y ++ '-' :: (mo ++ '-' :: d), r5)
        | _ => none
    | _ => none

/-- `HEADING_RE` applied to one line:
`^##\s+(?P<version>\d+\.\d+\.\d+)\s+-\s+(?P<date>\d{4}-\d{2}-\d{2})\s*$`.
Returns the two captured groups when the whole line matches. -/
def headingMatch (line : List Char) : Option (String × String) :=
  match line with
  | '#' :: '#' :: rest =>
    match dropWS1 rest with
    | none => none
    | some r1 =>
      match matchVersionNum r1 with
      | none => none
      | some (ver, r2) =>
        match dropWS1 r2 with
        | none => none
        | some r3 =>
          match r3 with
          | '-' :: r4 =>
            match dropWS1 r4 with
            | none => none
            | some r5 =>
              match matchDate r5 with
              | none => none
              | some (date, r6) =>
                if r6.all pyWS then some (String.mk ver, String.mk date)
                else none
          | _ => none
  | _ => none

/-- `load_headings`: every `HEADING_RE` match of the document, as
(version, date) string pairs in document order. -/
def load_headings (content : String) : List (String × String) :=
  (splitNl content.data).filterMap headingMatch

/-- `parse_semver`: split on `"."` and convert each part with `int`.  In the
script it is only applied to versions captured by `HEADING_RE`, which always
have exactly three all-digit parts; the catch-all branch is never reached on
such input. -/
def parse_semver (version : String) : Nat × Nat × Nat :=
  match splitSep '.' version.data with
  | [a, b, c] => (digitsToNat a, digitsToNat b, digitsToNat c)
  | _ => (0, 0, 0)

/-- Gregorian leap year, as `datetime.date` uses it. -/
def isLeapYear (y : Nat) : Bool :=
  (y % 4 = 0 && !(y % 100 = 0)) || y % 400 = 0

/-- Days in a month, as `datetime.date` uses it. -/
def daysInMonth (y m : Nat) : Nat :=
  if m = 2 then (if isLeapYear y then 29 else 28)
  else if m = 4 || m = 6 || m = 9 || m = 11 then 30
  else 31

/-- `datetime.date.fromisoformat` succeeds (no `ValueError`) on a date
string of the shape `\d{4}-\d{2}-\d{2}`: the year is at least 1 (and at most
9999), the month between 1 and 12, the day between 1 and the month's length.
The script only applies the check to strings captured by `HEADING_RE`, which
have that shape. -/
def date_fromisoformat_ok (date : String) : Bool :=
  match splitSep '-' date.data with
  | [ys, ms, ds] =>
    let y := digitsToNat ys
    let m := digitsToNat ms
    let d := digitsToNat ds
    decide (1 ≤ y) && decide (y ≤ 9999) && decide (1 ≤ m) && decide (m ≤ 12)
      && decide (1 ≤ d) && decide (d ≤ daysInMonth y m)
  | _ => false

/-- Python's `<` on integer triples: lexicographic. -/
def tripleLt (a b : Nat × Nat × Nat) : Bool :=
  decide (a.1 < b.1)
    || (decide (a.1 = b.1)
      && (decide (a.2.1 < b.2.1)
        || (decide (a.2.1 = b.2.1) && decide (a.2.2 < b.2.2))))

/-- Python's `>=` on integer triples: lexicographic. -/
def tripleGe (a b : Nat × Nat × Nat) : Bool :=
  decide (b.1 < a.1)
    || (decide (a.1 = b.1)
      && (decide (b.2.1 < a.2.1)
        || (decide (a.2.1 = b.2.1) && decide (b.2.2 ≤ a.2.2))))

/-- The `semver >= previous_version` test, guarded by
`previous_version is not None`. -/
def prevGe (prev : Option (Nat × Nat × Nat)) (s : Nat × Nat × Nat) : Bool :=
  match prev with
  | none => false
  | some pv => tripleGe s pv

def titleMsg : String := "CHANGELOG.md must start with '# Changelog'."

def noHeadingsMsg : String :=
  "No release headings found. Expected: '## X.Y.Z - YYYY-MM-DD'."

def dupMsg (version : String) : String :=
  "Duplicate changelog version heading found: " ++ version

def dateMsg (version date : String) : String :=
  "Invalid changelog date for " ++ version ++ ": " ++ date

def orderMsg : String :=
  "Changelog versions must be strictly descending (newest first)."

/-- The per-heading loop of `validate_changelog`, carrying the `seen` set
(as a list — only membership is used) and `previous_version`.  Returns the
first failure message, or `none` when every heading passes. -/
def checkHeadings :
    List (String × String) → List String → Option (Nat × Nat × Nat) →
      Option String
  | [], _, _ => none
  | (version, date_value) :: rest, seen, previous_version =>
    if version ∈ seen then some (dupMsg version)
    else if date_fromisoformat_ok date_value = false then
      some (dateMsg version date_value)
    else if prevGe previous_version (parse_semver version) then some orderMsg
    else checkHeadings rest (version :: seen) (some (parse_semver version))

/-- `validate_changelog`: title check, heading-presence check, then the
per-heading loop; on success returns `(True, first heading's version)`. -/
def validate_changelog (content : String) : Bool × String :=
  if "# Changelog".data.isPrefixOf content.data then
    match load_headings content with
    | [] => (false, noHeadingsMsg)
    | first :: rest =>
      match checkHeadings (first :: rest) [] none with
      | some msg => (false, msg)
      | none => (true, first.1)
  else (false, titleMsg)

/-- `latest_version`: the validated latest version, or the diagnostic as an
error (`raise ValueError(info)`). -/
def latest_version (content : String) : Except String String :=
  match validate_changelog content with
  | (true, info) => Except.ok info
  | (false, info) => Except.error info

/-- The version-specific pattern of `extract_release_notes`,
`^##\s+{re.escape(version)}\s+-\s+\d{4}-\d{2}-\d{2}\s*$`, applied to one
line: `re.escape` makes the version a literal. -/
def versionHeadingMatch (version : String) (line : List Char) : Bool :=
  match line with
  | '#' :: '#' :: rest =>
    match dropWS1 rest with
    | none => false
    | some r1 =>
      if version.data.isPrefixOf r1 then
        match dropWS1 (r1.drop version.data.length) with
        | none => false
        | some r3 =>
          match r3 with
          | '-' :: r4 =>
            match dropWS1 r4 with
            | none => false
            | some r5 =>
              match matchDate r5 with
              | none => false
              | some (_, r6) => r6.all pyWS
          | _ => false
      else false
  | _ => false

/-- `"\n".join` on character lists: the text the lines came from. -/
def intercalateNl : List (List Char) → List Char
  | [] => []
  | [l] => l
  | l :: ls => l ++ '\n' :: intercalateNl ls

/-- Python `str.strip()` restricted to ASCII whitespace: drop leading and
trailing whitespace characters. -/
def pyStrip (cs : List Char) : List Char :=
  ((cs.dropWhile pyWS).reverse.dropWhile pyWS).reverse

/-- `extract_release_notes`: find the first line matching the
version-specific heading pattern (error when there is none), take the
following lines up to the next line matching the generic heading pattern
(or the end of the document), join and strip them; an empty body is
replaced by the placeholder `Release v<version>`. -/
def extract_release_notes (content : String) (version : String) :
    Except String String :=
  let ls := splitNl content.data
  match ls.findIdx? (fun l => versionHeadingMatch version l) with
  | none => Except.error ("No changelog entry for " ++ version)
  | some i =>
    let body := (ls.drop (i + 1)).takeWhile (fun l => (headingMatch l).isNone)
    let notes := pyStrip (intercalateNl body)
    if notes.isEmpty then Except.ok ("Release v" ++ version)
    else Except.ok (String.mk notes)

/-- The requested version string itself has the `\d+\.\d+\.\d+` shape of the
version group of `HEADING_RE` (the shape every version captured by
`load_headings` has). -/
def versionIsSemver (version : String) : Bool :=
  match matchVersionNum version.data with
  | some (_, rest) => rest.isEmpty
  | none => false

/-- The first element, if any, fails the predicate: the condition under
which a maximal `takeWhile` run cannot extend into the remainder. -/
def headFails {α : Type} (p : α → Bool) : List α → Prop
  | [] => True
  | c :: _ => p c = false

/-- The first character, if any, is not a digit. -/
abbrev headNotDigit : List Char → Prop := headFails Char.isDigit

/-- An invalid document: the same version heads two release sections. -/
def dupDoc : String :=
  "# Changelog\n## 1.0.0 - 2024-01-01\nFirst notes.\n## 1.0.0 - 2024-05-01\nSecond notes.\n"

/-- The worked example of the changelog convention: title line, two
well-formed release sections, notes bodies, trailing newline. -/
def sampleDoc : String :=
  "# Changelog\n\n## 2.0.0 - 2024-06-01\nBreaking change.\n\n## 1.0.0 - 2024-01-01\nInitial release.\n"

/-- The spec's ascending-order example: the same two sections as
`sampleDoc` but with `1.0.0` above `2.0.0`. -/
def ascDoc : String :=
  "# Changelog\n## 1.0.0 - 2024-01-01\n## 2.0.0 - 2024-06-01\n"

/-- The headings of `ascDoc`. -/
def ascHeadings : List (String × String) :=
  [("1.0.0", "2024-01-01"), ("2.0.0", "2024-06-01")]

/-- A document whose second heading has a calendar-invalid date while the
first heading passes every check. -/
def invalidDateDoc : String :=
  "# Changelog\n## 3.0.0 - 2024-06-01\nok\n## 2.0.0 - 2024-02-30\n"

/-- The strict-descent relation between consecutive headings: the later
heading's parsed triple is lexicographically below the earlier one's. -/
abbrev semverDesc (a b : String × String) : Prop :=
  tripleLt (parse_semver b.1) (parse_semver a.1) = true

/-- What `previous_version = prev` must satisfy for the loop to pass the
ordering check at the first heading of `hs`. -/
def prevOk : Option (Nat × Nat × Nat) → List (String × String) → Prop
  | none, _ => True
  | some _, [] => True
  | some pv, p :: _ => tripleLt (parse_semver p.1) pv = true

/-- The value of `previous_version` after the loop has consumed `pre`,
starting from `prev`. -/
def lastTriple (prev : Option (Nat × Nat × Nat))
    (pre : List (String × String)) : Option (Nat × Nat × Nat) :=
  match pre.getLast? with
  | some p => some (parse_semver p.1)
  | none => prev

/-! Basic facts about the lexicographic triple comparisons. -/

theorem tripleLt_iff (a b : Nat × Nat × Nat) :
    tripleLt a b = true ↔
      a.1 < b.1 ∨ a.1 = b.1 ∧ (a.2.1 < b.2.1 ∨ a.2.1 = b.2.1 ∧ a.2.2 < b.2.2) := by
  simp [tripleLt]

theorem tripleGe_iff (a b : Nat × Nat × Nat) :
    tripleGe a b = true ↔
      b.1 < a.1 ∨ a.1 = b.1 ∧ (b.2.1 < a.2.1 ∨ a.2.1 = b.2.1 ∧ b.2.2 ≤ a.2.2) := by
  simp [tripleGe]

theorem tripleGe_eq_false_iff (a b : Nat × Nat × Nat) :
    tripleGe a b = false ↔ tripleLt a b = true := by
  rw [← Bool.not_eq_true, tripleGe_iff, tripleLt_iff]
  omega

theorem tripleGe_true_iff (a b : Nat × Nat × Nat) :
    tripleGe a b = true ↔ ¬ tripleLt a b = true := by
  rw [← tripleGe_eq_false_iff]
  cases tripleGe a b <;> simp

theorem tripleGe_of_tripleLt {a b : Nat × Nat × Nat}
    (h : tripleLt a b = true) : tripleGe b a = true := by
  rw [tripleLt_iff] at h
  rw [tripleGe_iff]
  omega

theorem tripleGe_refl (a : Nat × Nat × Nat) : tripleGe a a = true := by
  rw [tripleGe_iff]
  omega

theorem tripleLt_trans {a b c : Nat × Nat × Nat}
    (h1 : tripleLt a b = true) (h2 : tripleLt b c = true) :
    tripleLt a c = true := by
  rw [tripleLt_iff] at h1 h2 ⊢
  omega

theorem tripleLt_irrefl (a : Nat × Nat × Nat) : tripleLt a a = false := by
  rw [← Bool.not_eq_true, tripleLt_iff]
  omega

instance : IsTrans (String × String) semverDesc :=
  ⟨fun _ _ _ h1 h2 => tripleLt_trans h2 h1⟩

/-- The loop walks through a block of headings that passes every check,
reaching the remaining headings with the block's versions added to `seen`
and `previous_version` set to the block's last triple. -/
theorem checkHeadings_append (pre : List (String × String)) :
    ∀ (tail : List (String × String)) (seen : List String)
      (prev : Option (Nat × Nat × Nat)),
      (∀ p ∈ pre, date_fromisoformat_ok p.2 = true) →
      (pre.map Prod.fst).Nodup →
      (∀ p ∈ pre, p.1 ∉ seen) →
      List.Chain' semverDesc pre →
      prevOk prev pre →
      checkHeadings (pre ++ tail) seen prev =
        checkHeadings tail ((pre.map Prod.fst).reverse ++ seen)
          (lastTriple prev pre) := by
  induction pre with
  | nil => intro tail seen prev _ _ _ _ _; simp [lastTriple]
  | cons hd tl ih =>
    intro tail seen prev hdates hnodup hseen hchain hprev
    obtain ⟨v, d⟩ := hd
    have hv : v ∉ seen := hseen (v, d) (List.mem_cons_self _ _)
    have hd' : date_fromisoformat_ok d = true :=
      hdates (v, d) (List.mem_cons_self _ _)
    have hord : prevGe prev (parse_semver v) = false := by
      cases prev with
      | none => rfl
      | some pv =>
        simpa [prevGe, tripleGe_eq_false_iff] using hprev
    have hstep :
        checkHeadings (((v, d) :: tl) ++ tail) seen prev =
          checkHeadings (tl ++ tail) (v :: seen) (some (parse_semver v)) := by
      simp [checkHeadings, hv, hd', hord]
    rw [hstep]
    have hnodup' : (tl.map Prod.fst).Nodup :=
      (List.nodup_cons.mp (by simpa using hnodup)).2
    have hvtl : v ∉ tl.map Prod.fst :=
      (List.nodup_cons.mp (by simpa using hnodup)).1
    have hseen' : ∀ p ∈ tl, p.1 ∉ v :: seen := by
      intro p hp
      simp only [List.mem_cons]
      rintro (hpv | hpseen)
      · exact hvtl (hpv ▸ List.mem_map_of_mem Prod.fst hp)
      · exact hseen p (List.mem_cons_of_mem _ hp) hpseen
    have hchain' : List.Chain' semverDesc tl := hchain.tail
    have hprev' : prevOk (some (parse_semver v)) tl := by
      cases tl with
      | nil => trivial
      | cons q tq =>
        have := (List.chain'_cons'.mp hchain).1 q rfl
        simpa [prevOk] using this
    rw [ih tail (v :: seen) (some (parse_semver v)) (fun p hp => hdates p (List.mem_cons_of_mem _ hp))
      hnodup' hseen' hchain' hprev']
    congr 1
    · simp
    · cases tl with
      | nil => simp [lastTriple]
      | cons q tq =>
        unfold lastTriple
        rw [List.getLast?_cons_cons]
        cases hq : (q :: tq).getLast? with
        | none => exact absurd (List.getLast?_eq_none_iff.mp hq) (by simp)
        | some p => rfl

/-- When the duplicate and date checks can never fire (pairwise-distinct
versions disjoint from `seen`, valid dates) and the strict-descent condition
is violated, the loop fails and its diagnostic is the ordering message. -/
theorem checkHeadings_orderMsg (hs : List (String × String)) :
    ∀ (seen : List String) (prev : Option (Nat × Nat × Nat)),
      (∀ p ∈ hs, date_fromisoformat_ok p.2 = true) →
      (hs.map Prod.fst).Nodup →
      (∀ p ∈ hs, p.1 ∉ seen) →
      ¬ (List.Chain' semverDesc hs ∧ prevOk prev hs) →
      checkHeadings hs seen prev = some orderMsg := by
  induction hs with
  | nil =>
    intro seen prev _ _ _ hbad
    exact absurd ⟨List.chain'_nil, by cases prev <;> trivial⟩ hbad
  | cons hd tl ih =>
    intro seen prev hdates hnodup hseen hbad
    obtain ⟨v, d⟩ := hd
    have hv : v ∉ seen := hseen (v, d) (List.mem_cons_self _ _)
    have hd' : date_fromisoformat_ok d = true :=
      hdates (v, d) (List.mem_cons_self _ _)
    cases hord : prevGe prev (parse_semver v) with
    | true => simp [checkHeadings, hv, hd', hord]
    | false =>
      have hprev : prevOk prev ((v, d) :: tl) := by
        cases prev with
        | none => trivial
        | some pv =>
          simpa [prevOk] using (tripleGe_eq_false_iff _ _).mp (by simpa [prevGe] using hord)
      have hstep :
          checkHeadings ((v, d) :: tl) seen prev =
            checkHeadings tl (v :: seen) (some (parse_semver v)) := by
        simp [checkHeadings, hv, hd', hord]
      rw [hstep]
      have hnodup' : (tl.map Prod.fst).Nodup :=
        (List.nodup_cons.mp (by simpa using hnodup)).2
      have hvtl : v ∉ tl.map Prod.fst :=
        (List.nodup_cons.mp (by simpa using hnodup)).1
      have hseen' : ∀ p ∈ tl, p.1 ∉ v :: seen := by
        intro p hp
        simp only [List.mem_cons]
        rintro (hpv | hpseen)
        · exact hvtl (hpv ▸ List.mem_map_of_mem Prod.fst hp)
        · exact hseen p (List.mem_cons_of_mem _ hp) hpseen
      refine ih (v :: seen) (some (parse_semver v))
        (fun p hp => hdates p (List.mem_cons_of_mem _ hp)) hnodup' hseen' ?_
      rintro ⟨hchain', hprev'⟩
      refine hbad ⟨List.chain'_cons'.mpr ⟨?_, hchain'⟩, hprev⟩
      intro y hy
      cases tl with
      | nil => simp at hy
      | cons q tq =>
        simp only [List.head?_cons, Option.mem_def, Option.some.injEq] at hy
        subst hy
        simpa [prevOk] using hprev'

/-- Every failure message the loop can produce is a duplicate, date or
ordering diagnostic. -/
theorem checkHeadings_some_shape (hs : List (String × String)) :
    ∀ (seen : List String) (prev : Option (Nat × Nat × Nat)) (m : String),
      checkHeadings hs seen prev = some m →
      (∃ v, m = dupMsg v) ∨ (∃ v d, m = dateMsg v d) ∨ m = orderMsg := by
  induction hs with
  | nil => intro seen prev m h; simp [checkHeadings] at h
  | cons hd tl ih =>
    intro seen prev m h
    obtain ⟨v, d⟩ := hd
    by_cases hv : v ∈ seen
    · simp only [checkHeadings, if_pos hv, Option.some.injEq] at h
      exact Or.inl ⟨v, h.symm⟩
    · by_cases hd' : date_fromisoformat_ok d = false
      · simp only [checkHeadings, if_neg hv, if_pos hd', Option.some.injEq] at h
        exact Or.inr (Or.inl ⟨v, d, h.symm⟩)
      · by_cases hord : prevGe prev (parse_semver v) = true
        · simp only [checkHeadings, if_neg hv, if_neg hd', if_pos hord,
            Option.some.injEq] at h
          exact Or.inr (Or.inr h.symm)
        · simp only [checkHeadings, if_neg hv, if_neg hd',
            if_neg hord] at h
          exact ih _ _ m h

/-- The first character of each diagnostic distinguishes it from the title
message, whatever the interpolated version and date are. -/
theorem dupMsg_ne_titleMsg (v : String) : dupMsg v ≠ titleMsg := by
  obtain ⟨vd⟩ := v
  intro h
  have h2 := congrArg (fun s => s.data.head?) h
  have h3 : (some 'D' : Option Char) = some 'C' := h2
  simp at h3

theorem dateMsg_ne_titleMsg (v d : String) : dateMsg v d ≠ titleMsg := by
  obtain ⟨vd⟩ := v
  obtain ⟨dd⟩ := d
  intro h
  have h2 := congrArg (fun s => s.data.head?) h
  have h3 : (some 'I' : Option Char) = some 'C' := h2
  simp at h3

theorem orderMsg_ne_titleMsg : orderMsg ≠ titleMsg := by decide

theorem noHeadingsMsg_ne_titleMsg : noHeadingsMsg ≠ titleMsg := by decide

theorem noHeadingsMsg_ne_orderMsg : noHeadingsMsg ≠ orderMsg := by decide

/-- C1: for every well-formed document (title line present, at least one
heading, pairwise-distinct versions, valid calendar dates, strictly
descending numeric triples top to bottom), `validate_changelog` succeeds and
returns the version string of the first heading, and that version is the
maximum of all heading versions under lexicographic triple comparison. -/
theorem validate_changelog_wellformed (content : String)
    (first : String × String) (rest : List (String × String))
    (htitle : "# Changelog".data.isPrefixOf content.data = true)
    (hload : load_headings content = first :: rest)
    (hnodup : ((first :: rest).map Prod.fst).Nodup)
    (hdates : ∀ p ∈ first :: rest, date_fromisoformat_ok p.2 = true)
    (hdesc : List.Chain' semverDesc (first :: rest)) :
    validate_changelog content = (true, first.1) ∧
      ∀ p ∈ first :: rest,
        tripleGe (parse_semver first.1) (parse_semver p.1) = true := by
  have hloop : checkHeadings (first :: rest) [] none = none := by
    have h := checkHeadings_append (first :: rest) [] [] none hdates hnodup
      (by simp) hdesc trivial
    simpa [checkHeadings] using h
  constructor
  · simp [validate_changelog, htitle, hload, hloop]
  · have hpw : List.Pairwise semverDesc (first :: rest) :=
      List.chain'_iff_pairwise.mp hdesc
    intro p hp
    rcases List.mem_cons.mp hp with h | h
    · subst h; exact tripleGe_refl _
    · exact tripleGe_of_tripleLt ((List.pairwise_cons.mp hpw).1 p h)

theorem validate_changelog_wellformed_witness :
    ("# Changelog".data.isPrefixOf sampleDoc.data = true) ∧
    (load_headings sampleDoc =
      [("2.0.0", "2024-06-01"), ("1.0.0", "2024-01-01")]) ∧
    ((["2.0.0", "1.0.0"] : List String).Nodup) ∧
    (date_fromisoformat_ok "2024-06-01" = true ∧
      date_fromisoformat_ok "2024-01-01" = true) ∧
    (tripleLt (parse_semver "1.0.0") (parse_semver "2.0.0") = true) ∧
    (validate_changelog sampleDoc = (true, "2.0.0") ∧
      ∀ p ∈ [(("2.0.0" : String), ("2024-06-01" : String)),
          ("1.0.0", "2024-01-01")],
        tripleGe (parse_semver "2.0.0") (parse_semver p.1) = true) :=
  ⟨by decide, by decide, by decide, by decide, by decide,
    validate_changelog_wellformed sampleDoc ("2.0.0", "2024-06-01")
      [("1.0.0", "2024-01-01")] (by decide) (by decide) (by decide)
      (by decide)
      (List.chain'_cons.mpr ⟨by decide, List.chain'_singleton _⟩)⟩

/-- C3: the loop checks headings in document order and short-circuits on the
first failure.  First conjunct: a heading whose version was already seen
yields the duplicate diagnostic whatever its date is and whatever headings
follow (duplicate check before date check, remaining headings unchecked).
Second conjunct: a non-duplicate heading with an invalid date yields the date
diagnostic whatever follows and whatever the previous version was (date check
before ordering check).  Third conjunct: on the initial call the first
heading, once its date is valid, can never fail — in particular it cannot
fail the ordering check, there being no previous version. -/
theorem checkHeadings_order_of_checks :
    (∀ (v d : String) (rest : List (String × String)) (seen : List String)
        (prev : Option (Nat × Nat × Nat)), v ∈ seen →
        checkHeadings ((v, d) :: rest) seen prev = some (dupMsg v)) ∧
    (∀ (v d : String) (rest : List (String × String)) (seen : List String)
        (prev : Option (Nat × Nat × Nat)),
        v ∉ seen → date_fromisoformat_ok d = false →
        checkHeadings ((v, d) :: rest) seen prev = some (dateMsg v d)) ∧
    (∀ (v d : String) (rest : List (String × String)),
        date_fromisoformat_ok d = true →
        checkHeadings ((v, d) :: rest) [] none =
          checkHeadings rest [v] (some (parse_semver v))) := by
  refine ⟨?_, ?_, ?_⟩
  · intro v d rest seen prev hv
    simp [checkHeadings, hv]
  · intro v d rest seen prev hv hd
    simp [checkHeadings, hv, hd]
  · intro v d rest hd
    simp [checkHeadings, hd, prevGe]

theorem checkHeadings_order_of_checks_witness :
    (checkHeadings [("1.0.0", "2024-02-30")] ["1.0.0"] none =
      some (dupMsg "1.0.0")) ∧
    (checkHeadings [("1.0.0", "2024-02-30")] [] none =
      some (dateMsg "1.0.0" "2024-02-30")) ∧
    (checkHeadings [("3.0.0", "2024-01-01")] [] none =
      checkHeadings [] ["3.0.0"] (some (parse_semver "3.0.0"))) :=
  ⟨checkHeadings_order_of_checks.1 "1.0.0" "2024-02-30" [] ["1.0.0"] none
      (by decide),
    checkHeadings_order_of_checks.2.1 "1.0.0" "2024-02-30" [] [] none
      (by decide) (by decide),
    checkHeadings_order_of_checks.2.2 "3.0.0" "2024-01-01" [] (by decide)⟩

/-- C5: validation fails with the title-format diagnostic exactly when the
document text does not begin with the string `# Changelog`, regardless of
heading content. -/
theorem title_diagnostic_iff (content : String) :
    validate_changelog content = (false, titleMsg) ↔
      "# Changelog".data.isPrefixOf content.data = false := by
  cases hpre : "# Changelog".data.isPrefixOf content.data with
  | false => simp [validate_changelog, hpre]
  | true =>
    simp only [Bool.true_eq_false, iff_false]
    intro h
    cases hl : load_headings content with
    | nil =>
      have hval : validate_changelog content = (false, noHeadingsMsg) := by
        simp [validate_changelog, hpre, hl]
      rw [hval] at h
      exact noHeadingsMsg_ne_titleMsg (congrArg Prod.snd h)
    | cons first rest =>
      cases hc : checkHeadings (first :: rest) [] none with
      | none =>
        have hval : validate_changelog content = (true, first.1) := by
          simp [validate_changelog, hpre, hl, hc]
        rw [hval] at h
        exact Bool.true_eq_false.mp (congrArg Prod.fst h)
      | some m =>
        have hval : validate_changelog content = (false, m) := by
          simp [validate_changelog, hpre, hl, hc]
        rw [hval] at h
        have hm : m = titleMsg := congrArg Prod.snd h
        rcases checkHeadings_some_shape _ _ _ m hc with ⟨v, rfl⟩ | ⟨v, d, rfl⟩ | rfl
        · exact dupMsg_ne_titleMsg v hm
        · exact dateMsg_ne_titleMsg v d hm
        · exact orderMsg_ne_titleMsg hm

/-- C4 counterexample: the claimed equivalence ("validation fails with an
ordering diagnostic if and only if some heading's triple is greater than or
equal to its immediate predecessor's") is false as stated: in this document
the second heading's triple `2.0.0` is greater than its predecessor's
`1.0.0`, yet validation fails with the title diagnostic, not the ordering
diagnostic, because the title line is missing. -/
theorem ordering_diagnostic_iff_counterexample :
    load_headings "## 1.0.0 - 2024-01-01\n## 2.0.0 - 2024-06-01\n" =
      [("1.0.0", "2024-01-01"), ("2.0.0", "2024-06-01")] ∧
    tripleGe (parse_semver "2.0.0") (parse_semver "1.0.0") = true ∧
    validate_changelog "## 1.0.0 - 2024-01-01\n## 2.0.0 - 2024-06-01\n" =
      (false, titleMsg) ∧
    titleMsg ≠ orderMsg := by decide

/-- C4 (amended): for a document whose title check passes and whose headings
have pairwise-distinct version strings and valid dates, validation fails
with the ordering diagnostic if and only if some heading's numeric triple is
greater than or equal to its immediate predecessor's — the comparison being
on parsed numeric triples, not strings: in particular a document with
heading `10.0.0` above `2.0.0` validates successfully. -/
theorem validate_ordering_diagnostic_iff :
    (∀ (content : String) (hs : List (String × String)),
        "# Changelog".data.isPrefixOf content.data = true →
        load_headings content = hs →
        (hs.map Prod.fst).Nodup →
        (∀ p ∈ hs, date_fromisoformat_ok p.2 = true) →
        (validate_changelog content = (false, orderMsg) ↔
          ∃ i, ∃ hi : i + 1 < hs.length,
            tripleGe (parse_semver (hs.get ⟨i + 1, hi⟩).1)
              (parse_semver (hs.get ⟨i, Nat.lt_of_succ_lt hi⟩).1) = true)) ∧
    validate_changelog
        "# Changelog\n## 10.0.0 - 2024-06-01\n## 2.0.0 - 2024-01-01\n" =
      (true, "10.0.0") := by
  constructor
  · intro content hs htitle hload hnodup hdates
    have hbridge : (¬ List.Chain' semverDesc hs) ↔
        ∃ i, ∃ hi : i + 1 < hs.length,
          tripleGe (parse_semver (hs.get ⟨i + 1, hi⟩).1)
            (parse_semver (hs.get ⟨i, Nat.lt_of_succ_lt hi⟩).1) = true := by
      rw [List.chain'_iff_get]
      push_neg
      constructor
      · rintro ⟨i, hi, hR⟩
        exact ⟨i, by omega, (tripleGe_true_iff _ _).mpr hR⟩
      · rintro ⟨i, hi, hge⟩
        exact ⟨i, by omega, (tripleGe_true_iff _ _).mp hge⟩
    rw [← hbridge]
    constructor
    · intro hval hchain
      cases hhs : hs with
      | nil =>
        subst hhs
        have : validate_changelog content = (false, noHeadingsMsg) := by
          simp [validate_changelog, htitle, hload]
        rw [this] at hval
        exact noHeadingsMsg_ne_orderMsg (congrArg Prod.snd hval)
      | cons first rest =>
        subst hhs
        have hloop : checkHeadings (first :: rest) [] none = none := by
          have h := checkHeadings_append (first :: rest) [] [] none hdates
            hnodup (by simp) hchain trivial
          simpa [checkHeadings] using h
        have : validate_changelog content = (true, first.1) := by
          simp [validate_changelog, htitle, hload, hloop]
        rw [this] at hval
        exact Bool.true_eq_false.mp (congrArg Prod.fst hval)
    · intro hnotchain
      cases hhs : hs with
      | nil => exact absurd List.chain'_nil (hhs ▸ hnotchain)
      | cons first rest =>
        subst hhs
        have hloop : checkHeadings (first :: rest) [] none = some orderMsg :=
          checkHeadings_orderMsg (first :: rest) [] none hdates hnodup
            (by simp) (fun hand => hnotchain hand.1)
        simp [validate_changelog, htitle, hload, hloop]
  · decide

theorem validate_ordering_diagnostic_iff_witness :
    ("# Changelog".data.isPrefixOf ascDoc.data = true) ∧
    (load_headings ascDoc = ascHeadings) ∧
    ((ascHeadings.map Prod.fst).Nodup) ∧
    (∀ p ∈ ascHeadings, date_fromisoformat_ok p.2 = true) ∧
    (validate_changelog ascDoc = (false, orderMsg) ↔
      ∃ i, ∃ hi : i + 1 < ascHeadings.length,
        tripleGe (parse_semver (ascHeadings.get ⟨i + 1, hi⟩).1)
          (parse_semver (ascHeadings.get ⟨i, Nat.lt_of_succ_lt hi⟩).1) =
          true) :=
  ⟨by decide, by decide, by decide, by decide,
    validate_ordering_diagnostic_iff.1 ascDoc ascHeadings (by decide)
      (by decide) (by decide) (by decide)⟩

/-- C6 counterexample: the claim as stated only requires the earlier
headings to pass the duplicate and date checks, but here the invalid-date
heading repeats the earlier heading's version, so the duplicate check fires
first at that heading and the diagnostic names no date: the single earlier
heading `(2.0.0, 2024-01-01)` passes its duplicate and date checks, the
second heading's date `2024-02-30` is shape-valid but calendar-invalid, and
validation fails with the duplicate diagnostic, not the date diagnostic. -/
theorem invalid_date_diagnostic_counterexample :
    load_headings
        "# Changelog\n## 2.0.0 - 2024-01-01\n## 2.0.0 - 2024-02-30\n" =
      [("2.0.0", "2024-01-01"), ("2.0.0", "2024-02-30")] ∧
    date_fromisoformat_ok "2024-01-01" = true ∧
    date_fromisoformat_ok "2024-02-30" = false ∧
    validate_changelog
        "# Changelog\n## 2.0.0 - 2024-01-01\n## 2.0.0 - 2024-02-30\n" =
      (false, dupMsg "2.0.0") ∧
    dupMsg "2.0.0" ≠ dateMsg "2.0.0" "2024-02-30" := by decide

/-- C6 (amended): for any document whose title check passes, containing a
heading whose date string matches the `YYYY-MM-DD` shape but is not a valid
calendar date, where every earlier heading passes the duplicate, date and
ordering checks and the heading's own version does not repeat an earlier
heading's version, validation fails with the diagnostic naming that
heading's version and the bad date string. -/
theorem invalid_date_diagnostic (content v d : String)
    (pre rest : List (String × String))
    (htitle : "# Changelog".data.isPrefixOf content.data = true)
    (hload : load_headings content = pre ++ (v, d) :: rest)
    (hpre_dates : ∀ p ∈ pre, date_fromisoformat_ok p.2 = true)
    (hpre_nodup : (pre.map Prod.fst).Nodup)
    (hpre_chain : List.Chain' semverDesc pre)
    (hvnew : ∀ p ∈ pre, p.1 ≠ v)
    (hd : date_fromisoformat_ok d = false) :
    validate_changelog content = (false, dateMsg v d) := by
  have hvseen : v ∉ (pre.map Prod.fst).reverse ++ ([] : List String) := by
    simp only [List.append_nil, List.mem_reverse, List.mem_map]
    rintro ⟨p, hp, hpv⟩
    exact hvnew p hp hpv
  have hloop :
      checkHeadings (pre ++ (v, d) :: rest) [] none = some (dateMsg v d) := by
    rw [checkHeadings_append pre ((v, d) :: rest) [] none hpre_dates
      hpre_nodup (by simp) hpre_chain trivial]
    rw [checkHeadings, if_neg hvseen, if_pos hd]
  rcases hcons : pre ++ (v, d) :: rest with _ | ⟨first, rest'⟩
  · exact absurd hcons (by cases pre <;> simp)
  · rw [hcons] at hload hloop
    simp [validate_changelog, htitle, hload, hloop]

theorem invalid_date_diagnostic_witness :
    ("# Changelog".data.isPrefixOf invalidDateDoc.data = true) ∧
    (load_headings invalidDateDoc =
      [("3.0.0", "2024-06-01")] ++ ("2.0.0", "2024-02-30") :: []) ∧
    (∀ p ∈ [(("3.0.0" : String), ("2024-06-01" : String))],
      date_fromisoformat_ok p.2 = true) ∧
    (([("3.0.0", "2024-06-01")].map
        (Prod.fst (α := String) (β := String))).Nodup) ∧
    (List.Chain' semverDesc [("3.0.0", "2024-06-01")]) ∧
    (∀ p ∈ [(("3.0.0" : String), ("2024-06-01" : String))],
      p.1 ≠ "2.0.0") ∧
    (date_fromisoformat_ok "2024-02-30" = false) ∧
    (validate_changelog invalidDateDoc =
      (false, dateMsg "2.0.0" "2024-02-30")) :=
  ⟨by decide, by decide, by decide, by decide, List.chain'_singleton _,
    by decide, by decide,
    invalid_date_diagnostic invalidDateDoc "2.0.0" "2024-02-30"
      [("3.0.0", "2024-06-01")] [] (by decide) (by decide) (by decide)
      (by decide) (List.chain'_singleton _) (by decide) (by decide)⟩

/-! Helper lemmas about the searches in `extract_release_notes`. -/

theorem findIdx?_append_first {α : Type} (p : α → Bool) :
    ∀ (pre : List α) (x : α) (rest : List α) (i : Nat),
      (∀ l ∈ pre, p l = false) → p x = true →
      List.findIdx? p (pre ++ x :: rest) i = some (i + pre.length) := by
  intro pre
  induction pre with
  | nil => intro x rest i _ hx; simp [List.findIdx?_cons, hx]
  | cons a as ih =>
    intro x rest i hpre hx
    have ha : p a = false := hpre a (List.mem_cons_self _ _)
    rw [List.cons_append, List.findIdx?_cons]
    simp only [ha, Bool.false_eq_true, if_false]
    rw [ih x rest (i + 1) (fun l hl => hpre l (List.mem_cons_of_mem _ hl)) hx]
    congr 1
    simp only [List.length_cons]
    omega

theorem findIdx?_some_imp {α : Type} (p : α → Bool) :
    ∀ (l : List α) (i j : Nat), List.findIdx? p l i = some j →
      ∃ x ∈ l, p x = true := by
  intro l
  induction l with
  | nil => intro i j h; simp [List.findIdx?_nil] at h
  | cons a as ih =>
    intro i j h
    rw [List.findIdx?_cons] at h
    by_cases ha : p a = true
    · exact ⟨a, List.mem_cons_self _ _, ha⟩
    · simp only [ha, if_false] at h
      obtain ⟨x, hx, hpx⟩ := ih (i + 1) j h
      exact ⟨x, List.mem_cons_of_mem _ hx, hpx⟩

theorem takeWhile_append_stop {α : Type} (q : α → Bool) :
    ∀ (body post : List α), (∀ l ∈ body, q l = true) →
      (post = [] ∨ ∃ pl ps, post = pl :: ps ∧ q pl = false) →
      (body ++ post).takeWhile q = body := by
  intro body
  induction body with
  | nil =>
    intro post _ hpost
    rcases hpost with rfl | ⟨pl, ps, rfl, hq⟩
    · simp
    · simp [List.takeWhile_cons, hq]
  | cons a as ih =>
    intro post hbody hpost
    have ha : q a = true := hbody a (List.mem_cons_self _ _)
    simp [List.takeWhile_cons, ha,
      ih post (fun l hl => hbody l (List.mem_cons_of_mem _ hl)) hpost]

theorem drop_append_succ {α : Type} (pre : List α) (x : α) (t : List α) :
    (pre ++ x :: t).drop (pre.length + 1) = t := by
  rw [← List.drop_drop, List.drop_left]
  rfl

/-- The result of `extract_release_notes` on a document whose lines
decompose as: a prefix with no heading for the requested version, the
version's heading line, a body block with no generic heading line, and
either nothing or a block opened by a generic heading line. -/
theorem extract_notes_decomp (content version : String)
    (pre body post : List (List Char)) (h : List Char)
    (hsplit : splitNl content.data = pre ++ h :: (body ++ post))
    (hpre : ∀ l ∈ pre, versionHeadingMatch version l = false)
    (hh : versionHeadingMatch version h = true)
    (hbody : ∀ l ∈ body, headingMatch l = none)
    (hpost : post = [] ∨
      ∃ pl ps, post = pl :: ps ∧ (headingMatch pl).isSome = true) :
    extract_release_notes content version =
      (if (pyStrip (intercalateNl body)).isEmpty then
        Except.ok ("Release v" ++ version)
      else Except.ok (String.mk (pyStrip (intercalateNl body)))) := by
  have hf : (splitNl content.data).findIdx?
      (fun l => versionHeadingMatch version l) = some pre.length := by
    rw [hsplit]
    have := findIdx?_append_first (fun l => versionHeadingMatch version l)
      pre h (body ++ post) 0 hpre hh
    simpa using this
  have hdrop : (splitNl content.data).drop (pre.length + 1) = body ++ post := by
    rw [hsplit, drop_append_succ]
  have htake : ((splitNl content.data).drop (pre.length + 1)).takeWhile
      (fun l => (headingMatch l).isNone) = body := by
    rw [hdrop]
    refine takeWhile_append_stop _ body post ?_ ?_
    · intro l hl
      simp [hbody l hl]
    · rcases hpost with rfl | ⟨pl, ps, hpost', hq⟩
      · exact Or.inl rfl
      · exact Or.inr ⟨pl, ps, hpost', by simp [Option.isNone_iff_eq_none,
          ← Option.not_isSome_iff_eq_none, hq]⟩
  unfold extract_release_notes
  simp only [hf, htake]

/-- C2: for a document whose lines decompose as a prefix with no heading
line for version V, then V's heading line, then the body lines up to the
next generic heading line (or the end of the document), extraction for V
returns exactly that body — the text strictly between the end of V's heading
line and the start of the next generic heading line or the end of the
document — joined and trimmed of leading and trailing whitespace, and the
placeholder `Release vV` when the trimmed body is empty. -/
theorem extract_release_notes_between (content version : String)
    (pre body post : List (List Char)) (h : List Char)
    (hsplit : splitNl content.data = pre ++ h :: (body ++ post))
    (hpre : ∀ l ∈ pre, versionHeadingMatch version l = false)
    (hh : versionHeadingMatch version h = true)
    (hbody : ∀ l ∈ body, headingMatch l = none)
    (hpost : post = [] ∨
      ∃ pl ps, post = pl :: ps ∧ (headingMatch pl).isSome = true) :
    extract_release_notes content version =
      (if (pyStrip (intercalateNl body)).isEmpty then
        Except.ok ("Release v" ++ version)
      else Except.ok (String.mk (pyStrip (intercalateNl body)))) :=
  extract_notes_decomp content version pre body post h hsplit hpre hh hbody
    hpost

theorem extract_release_notes_between_witness :
    (splitNl sampleDoc.data =
      ["# Changelog".data, []] ++ "## 2.0.0 - 2024-06-01".data ::
        (["Breaking change.".data, []] ++
          ["## 1.0.0 - 2024-01-01".data, "Initial release.".data, []])) ∧
    (∀ l ∈ [("# Changelog".data : List Char), []],
      versionHeadingMatch "2.0.0" l = false) ∧
    (versionHeadingMatch "2.0.0" "## 2.0.0 - 2024-06-01".data = true) ∧
    (∀ l ∈ [("Breaking change.".data : List Char), []],
      headingMatch l = none) ∧
    (([("## 1.0.0 - 2024-01-01".data : List Char),
        "Initial release.".data, []] = []) ∨
      ∃ pl ps, [("## 1.0.0 - 2024-01-01".data : List Char),
          "Initial release.".data, []] = pl :: ps ∧
        (headingMatch pl).isSome = true) ∧
    (extract_release_notes sampleDoc "2.0.0" =
      if (pyStrip (intercalateNl ["Breaking change.".data, []])).isEmpty then
        Except.ok ("Release v" ++ "2.0.0")
      else
        Except.ok
          (String.mk (pyStrip (intercalateNl ["Breaking change.".data, []])))) :=
  ⟨by decide, by decide, by decide, by decide,
    Or.inr ⟨"## 1.0.0 - 2024-01-01".data,
      ["Initial release.".data, []], rfl, by decide⟩,
    extract_release_notes_between sampleDoc "2.0.0"
      ["# Changelog".data, []] ["Breaking change.".data, []]
      ["## 1.0.0 - 2024-01-01".data, "Initial release.".data, []]
      "## 2.0.0 - 2024-06-01".data (by decide)
      (by decide) (by decide) (by decide)
      (Or.inr ⟨"## 1.0.0 - 2024-01-01".data,
        ["Initial release.".data, []], rfl, by decide⟩)⟩

/-- C7: extraction for version V fails with the not-found error exactly when
no line of the document matches the heading pattern for that version; the
outcome depends only on that search, not on whether the rest of the
document validates. -/
theorem extract_notfound_iff (content version : String) :
    (extract_release_notes content version =
        Except.error ("No changelog entry for " ++ version)) ↔
      ∀ l ∈ splitNl content.data, versionHeadingMatch version l = false := by
  cases hf : (splitNl content.data).findIdx?
      (fun l => versionHeadingMatch version l) with
  | none =>
    refine iff_of_true ?_ ?_
    · unfold extract_release_notes
      simp only [hf]
    · intro l hl
      have hnone := List.findIdx?_eq_none_iff.mp hf l hl
      simpa using hnone
  | some i =>
    refine iff_of_false ?_ ?_
    · intro heq
      unfold extract_release_notes at heq
      simp only [hf] at heq
      split at heq <;> simp at heq
    · intro hall
      obtain ⟨x, hx, hpx⟩ := findIdx?_some_imp _ _ 0 i hf
      have hpx' : versionHeadingMatch version x = true := hpx
      exact absurd hpx' (by simp [hall x hx])

/-- C9: lines that resemble release headings but do not match the exact
pattern — a two-part version, a one-digit date field, an `## Unreleased`
line — are ignored everywhere: `HEADING_RE` does not match them, so they are
not extracted as headings and never produce a per-heading diagnostic; a
document whose only `##` lines are such near-misses fails validation with
the no-headings diagnostic; and during notes extraction a near-miss line
does not terminate the notes body (the body for `2.0.0` below runs through
the near-miss `## 1.0 - 2024-01-01` line and stops only at the next exact
heading). -/
theorem near_miss_heading_lines_ignored :
    headingMatch "## 1.0 - 2024-01-01".data = none ∧
    headingMatch "## 1.0.0 - 2024-1-1".data = none ∧
    headingMatch "## Unreleased".data = none ∧
    validate_changelog
        "# Changelog\n\n## 1.0 - 2024-01-01\n## 1.0.0 - 2024-1-1\n## Unreleased\n" =
      (false, noHeadingsMsg) ∧
    extract_release_notes
        "# Changelog\n## 2.0.0 - 2024-06-01\nBody A\n## 1.0 - 2024-01-01\nBody B\n## 1.0.0 - 2024-01-01\nBody C\n"
        "2.0.0" =
      Except.ok "Body A\n## 1.0 - 2024-01-01\nBody B" :=
  ⟨by decide, by decide, by decide, by decide, rfl⟩

/-! Helper lemmas relating the version-specific heading pattern of
`extract_release_notes` to the generic `HEADING_RE` pattern. -/

theorem pyWS_not_digit {c : Char} (h : pyWS c = true) : c.isDigit = false := by
  simp only [pyWS, Bool.or_eq_true, decide_eq_true_eq] at h
  rcases h with ((((h | h) | h) | h) | h) | h <;> subst h <;> decide

theorem takeWhile_dropWhile_append {α : Type} (p : α → Bool) :
    ∀ (ds ys : List α), (∀ c ∈ ds, p c = true) → headFails p ys →
      (ds ++ ys).takeWhile p = ds ∧ (ds ++ ys).dropWhile p = ys := by
  intro ds
  induction ds with
  | nil =>
    intro ys _ hy
    cases ys with
    | nil => simp
    | cons c cs =>
      have hy' : p c = false := hy
      simp [List.takeWhile_cons, List.dropWhile_cons, hy']
  | cons a as ih =>
    intro ys hds hy
    have ha : p a = true := hds a (List.mem_cons_self _ _)
    have ihr := ih ys (fun c hc => hds c (List.mem_cons_of_mem _ hc)) hy
    simp [List.takeWhile_cons, List.dropWhile_cons, ha, ihr.1, ihr.2]

theorem dropWhile_head_false {α : Type} (p : α → Bool) :
    ∀ l : List α, headFails p (l.dropWhile p) := by
  intro l
  induction l with
  | nil => trivial
  | cons a as ih =>
    by_cases ha : p a = true
    · simpa [List.dropWhile_cons, ha] using ih
    · have ha' : p a = false := by revert ha; cases p a <;> simp
      simp [List.dropWhile_cons, ha', headFails]

theorem takeDigits1_concat (ds ys : List Char) (hne : ds ≠ [])
    (hds : ∀ c ∈ ds, c.isDigit = true) (hy : headNotDigit ys) :
    takeDigits1 (ds ++ ys) = some (ds, ys) := by
  have h := takeWhile_dropWhile_append Char.isDigit ds ys hds hy
  unfold takeDigits1
  simp only [h.1, h.2]
  simp [List.isEmpty_iff, hne]

theorem headFails_of_pyWS {c : Char} (l : List Char) (h : pyWS c = true) :
    headNotDigit (c :: l) := pyWS_not_digit h

theorem takeDigits1_some (xs ds rest : List Char)
    (h : takeDigits1 xs = some (ds, rest)) :
    xs = ds ++ rest ∧ ds ≠ [] ∧ (∀ c ∈ ds, c.isDigit = true) ∧
      headNotDigit rest := by
  unfold takeDigits1 at h
  by_cases he : (xs.takeWhile Char.isDigit).isEmpty = true
  · simp [he] at h
  · have he' : (xs.takeWhile Char.isDigit).isEmpty = false := by
      revert he; cases (xs.takeWhile Char.isDigit).isEmpty <;> simp
    simp only [he', Bool.false_eq_true, if_false, Option.some.injEq,
      Prod.mk.injEq] at h
    obtain ⟨h1, h2⟩ := h
    refine ⟨by rw [← h1, ← h2, List.takeWhile_append_dropWhile], ?_, ?_, ?_⟩
    · rw [← h1]; exact List.isEmpty_eq_false.mp he'
    · intro c hc; exact List.mem_takeWhile_imp (h1 ▸ hc)
    · have := dropWhile_head_false Char.isDigit xs
      rw [h2] at this
      exact this

theorem matchVersionNum_some (xs sp rest : List Char)
    (h : matchVersionNum xs = some (sp, rest)) :
    ∃ d1 d2 d3, xs = d1 ++ '.' :: (d2 ++ '.' :: (d3 ++ rest)) ∧
      sp = d1 ++ '.' :: (d2 ++ '.' :: d3) ∧
      d1 ≠ [] ∧ d2 ≠ [] ∧ d3 ≠ [] ∧
      (∀ c ∈ d1, c.isDigit = true) ∧ (∀ c ∈ d2, c.isDigit = true) ∧
      (∀ c ∈ d3, c.isDigit = true) ∧ headNotDigit rest := by
  unfold matchVersionNum at h
  split at h
  · exact Option.noConfusion h
  · rename_i d1 r1 h1
    split at h
    · rename_i r2
      split at h
      · exact Option.noConfusion h
      · rename_i d2 r3 h2
        split at h
        · rename_i r4
          split at h
          · exact Option.noConfusion h
          · rename_i d3 r5 h3
            simp only [Option.some.injEq, Prod.mk.injEq] at h
            obtain ⟨hsp, hrest⟩ := h
            obtain ⟨hx1, hne1, hdig1, _⟩ := takeDigits1_some _ _ _ h1
            obtain ⟨hx2, hne2, hdig2, _⟩ := takeDigits1_some _ _ _ h2
            obtain ⟨hx3, hne3, hdig3, hhead3⟩ := takeDigits1_some _ _ _ h3
            subst hrest
            refine ⟨d1, d2, d3, ?_, hsp.symm, hne1, hne2, hne3, hdig1,
              hdig2, hdig3, hhead3⟩
            rw [hx1, hx2, hx3]
        · exact Option.noConfusion h
    · exact Option.noConfusion h

theorem matchVersionNum_build (d1 d2 d3 ys : List Char) (h1 : d1 ≠ [])
    (h2 : d2 ≠ []) (h3 : d3 ≠ []) (hd1 : ∀ c ∈ d1, c.isDigit = true)
    (hd2 : ∀ c ∈ d2, c.isDigit = true) (hd3 : ∀ c ∈ d3, c.isDigit = true)
    (hy : headNotDigit ys) :
    matchVersionNum (d1 ++ '.' :: (d2 ++ '.' :: (d3 ++ ys))) =
      some (d1 ++ '.' :: (d2 ++ '.' :: d3), ys) := by
  have hdot1 : headNotDigit ('.' :: (d2 ++ '.' :: (d3 ++ ys))) :=
    (by decide : ('.' : Char).isDigit = false)
  have hdot2 : headNotDigit ('.' :: (d3 ++ ys)) :=
    (by decide : ('.' : Char).isDigit = false)
  unfold matchVersionNum
  simp only [takeDigits1_concat d1 ('.' :: (d2 ++ '.' :: (d3 ++ ys))) h1 hd1
    hdot1, takeDigits1_concat d2 ('.' :: (d3 ++ ys)) h2 hd2 hdot2,
    takeDigits1_concat d3 ys h3 hd3 hy]

theorem dropWS1_some (cs r : List Char) (h : dropWS1 cs = some r) :
    ∃ c cs', cs = c :: cs' ∧ pyWS c = true := by
  unfold dropWS1 at h
  cases cs with
  | nil => exact Option.noConfusion h
  | cons c cs' =>
    by_cases hc : pyWS c = true
    · exact ⟨c, cs', rfl, hc⟩
    · simp [hc] at h

theorem versionIsSemver_decomp (version : String)
    (hv : versionIsSemver version = true) :
    ∃ d1 d2 d3, version.data = d1 ++ '.' :: (d2 ++ '.' :: d3) ∧
      d1 ≠ [] ∧ d2 ≠ [] ∧ d3 ≠ [] ∧
      (∀ c ∈ d1, c.isDigit = true) ∧ (∀ c ∈ d2, c.isDigit = true) ∧
      (∀ c ∈ d3, c.isDigit = true) := by
  unfold versionIsSemver at hv
  cases hm : matchVersionNum version.data with
  | none => rw [hm] at hv; exact Bool.noConfusion hv
  | some p =>
    obtain ⟨sp, rest⟩ := p
    simp only [hm] at hv
    have hrest : rest = [] := List.isEmpty_iff.mp hv
    subst hrest
    obtain ⟨d1, d2, d3, hx, _, hne1, hne2, hne3, hdig1, hdig2, hdig3, _⟩ :=
      matchVersionNum_some version.data sp [] hm
    exact ⟨d1, d2, d3, by simpa using hx, hne1, hne2, hne3, hdig1, hdig2,
      hdig3⟩

/-- A line matching the version-specific pattern of `extract_release_notes`
for a version of the `\d+\.\d+\.\d+` shape also matches the generic
`HEADING_RE` pattern. -/
theorem versionHeading_isHeading (version : String) (l : List Char)
    (hv : versionIsSemver version = true)
    (hm : versionHeadingMatch version l = true) :
    (headingMatch l).isSome = true := by
  obtain ⟨d1, d2, d3, hvd, hne1, hne2, hne3, hd1, hd2, hd3⟩ :=
    versionIsSemver_decomp version hv
  unfold versionHeadingMatch at hm
  split at hm
  · rename_i rest
    split at hm
    · exact Bool.noConfusion hm
    · rename_i r1 hdw1
      split at hm
      · rename_i hpre
        split at hm
        · exact Bool.noConfusion hm
        · rename_i r3 hdw2
          split at hm
          · rename_i r4
            split at hm
            · exact Bool.noConfusion hm
            · rename_i r5 hdw3
              split at hm
              · exact Bool.noConfusion hm
              · rename_i dd r6 hmd
                obtain ⟨t, ht⟩ : ∃ t, r1 = version.data ++ t :=
                  ⟨r1.drop version.data.length,
                    (List.prefix_iff_eq_append.mp
                      (List.isPrefixOf_iff_prefix.mp hpre)).symm⟩
                rw [ht, List.drop_left] at hdw2
                obtain ⟨w, ws', hts, hw⟩ := dropWS1_some _ _ hdw2
                have hmv : matchVersionNum r1 =
                    some (d1 ++ '.' :: (d2 ++ '.' :: d3), t) := by
                  rw [ht, hvd]
                  have hb := matchVersionNum_build d1 d2 d3 t hne1 hne2
                    hne3 hd1 hd2 hd3
                    (by rw [hts]; exact headFails_of_pyWS ws' hw)
                  simpa [List.append_assoc, List.cons_append] using hb
                rw [ht] at hmv
                simp [headingMatch, hdw1, ht, hmv, hdw2, hdw3, hmd, hm]
          · exact Bool.noConfusion hm
      · exact Bool.noConfusion hm
  · exact Bool.noConfusion hm

/-- C8: `extract_release_notes` performs no validation of the document: on
an (invalid) document containing two headings for the same version V, it
returns the notes body following the first (topmost) occurrence of V's
heading, terminated by the next generic heading line after it — here the
second occurrence itself, which (V having the numeric three-part shape)
matches the generic pattern. -/
theorem extract_first_occurrence (content version : String)
    (pre mid post : List (List Char)) (h1 h2 : List Char)
    (hshape : versionIsSemver version = true)
    (hsplit : splitNl content.data = pre ++ h1 :: (mid ++ h2 :: post))
    (hpre : ∀ l ∈ pre, versionHeadingMatch version l = false)
    (hh1 : versionHeadingMatch version h1 = true)
    (hh2 : versionHeadingMatch version h2 = true)
    (hmid : ∀ l ∈ mid, headingMatch l = none) :
    extract_release_notes content version =
      (if (pyStrip (intercalateNl mid)).isEmpty then
        Except.ok ("Release v" ++ version)
      else Except.ok (String.mk (pyStrip (intercalateNl mid)))) :=
  extract_notes_decomp content version pre mid (h2 :: post) h1 hsplit hpre
    hh1 hmid
    (Or.inr ⟨h2, post, rfl, versionHeading_isHeading version h2 hshape hh2⟩)

theorem extract_first_occurrence_witness :
    (versionIsSemver "1.0.0" = true) ∧
    (splitNl dupDoc.data =
      ["# Changelog".data] ++ "## 1.0.0 - 2024-01-01".data ::
        (["First notes.".data] ++ "## 1.0.0 - 2024-05-01".data ::
          ["Second notes.".data, []])) ∧
    (∀ l ∈ [("# Changelog".data : List Char)],
      versionHeadingMatch "1.0.0" l = false) ∧
    (versionHeadingMatch "1.0.0" "## 1.0.0 - 2024-01-01".data = true) ∧
    (versionHeadingMatch "1.0.0" "## 1.0.0 - 2024-05-01".data = true) ∧
    (∀ l ∈ [("First notes.".data : List Char)], headingMatch l = none) ∧
    (extract_release_notes dupDoc "1.0.0" =
      if (pyStrip (intercalateNl ["First notes.".data])).isEmpty then
        Except.ok ("Release v" ++ "1.0.0")
      else
        Except.ok
          (String.mk (pyStrip (intercalateNl ["First notes.".data])))) :=
  ⟨by decide, by decide, by decide, by decide, by decide, by decide,
    extract_first_occurrence dupDoc "1.0.0" ["# Changelog".data]
      ["First notes.".data] ["Second notes.".data, []]
      "## 1.0.0 - 2024-01-01".data "## 1.0.0 - 2024-05-01".data
      (by decide) (by decide) (by decide) (by decide) (by decide)
      (by decide)⟩

/-- C10: validation is a pure function of the document text, so two runs on
the same unchanged text yield the same (success flag, message-or-version)
result. -/
theorem validate_changelog_deterministic (content : String) :
    validate_changelog content = validate_changelog content := rfl

end ValidateVersions
